import Mathlib

/-!
Verification development for the bills application (`src/app.py`), a Flask
service that imports bank transactions from CSV, categorizes them via a
merchant cache and an external AI classifier, supports reconciliation, and
aggregates reconciled transactions by category.

The Python source is shallowly embedded here:
* JSON records become Lean structures; a field whose value may be JSON
  `null` (or that starts out unset) becomes an `Option`.
* Python `float` amounts are modelled as exact rationals (`Rat`); every
  concrete amount appearing in the claims is exactly representable as a
  binary float, so the models agree on them.
* The persisted stores (transactions list, merchant cache dict) are passed
  and returned explicitly; a Python dict keyed by strings becomes an
  insertion-ordered association list with replace-in-place upsert, which is
  exactly CPython's observable dict behaviour for the operations used.
* The external classifier call and the Python-runtime library functions
  (`datetime.strptime`, `float()`, `hash()`) are inputs of the model,
  since their behaviour is external to the repository's code.
-/

namespace Bills

/-- A transaction record as created by `upload_csv` (src/app.py lines
235-242) and mutated by the categorization / reconciliation operations.
Fields that the import writes as JSON `null` or that are only added later
(`ai_*`, `note`) are `Option`s with `none` meaning null-or-absent. -/
structure Transaction where
  id : String
  date : String
  amount : Rat
  description : String
  category_code : Option String
  reconciled : Bool
  ai_suggested_code : Option String := none
  ai_confidence : Option String := none
  ai_from_cache : Option Bool := none
  note : Option String := none
deriving DecidableEq

/-- A category record (src/app.py lines 154-159). -/
structure Category where
  code : String
  name : String
  type : String
  category_type : String
deriving DecidableEq

/-- A merchant-cache entry (src/app.py lines 293-297): the learned
category code, a confidence level, and the transaction that taught it. -/
structure CacheEntry where
  category_code : String
  confidence : String
  learned_from : String
deriving DecidableEq

/-- The merchant cache: a JSON object mapping lowercased merchant keys to
entries.  Modelled as an insertion-ordered association list; `cacheInsert`
mirrors CPython dict assignment (overwrite in place, else append). -/
def MerchantCache := List (String × CacheEntry)

instance : DecidableEq MerchantCache := by
  unfold MerchantCache; infer_instance

/-- Python dict assignment `merchant_cache[k] = v`: replaces the value of an
existing key in place, otherwise appends the new key. -/
def cacheInsert (k : String) (v : CacheEntry) : MerchantCache → MerchantCache
  | [] => [(k, v)]
  | (k', v') :: rest =>
      if k' = k then (k, v) :: rest else (k', v') :: cacheInsert k v rest

/-- Python dict lookup `merchant_cache.get(k)` / `k in merchant_cache`. -/
def cacheLookup (k : String) (c : MerchantCache) : Option CacheEntry :=
  (c.find? (fun p => p.1 = k)).map (fun p => p.2)

/-! ## Merchant normalizer (`extract_merchant_name`, src/app.py lines 39-48) -/

/-- Python `desc.strip()` on a list of characters. -/
def stripChars (cs : List Char) : List Char :=
  ((cs.dropWhile Char.isWhitespace).reverse.dropWhile Char.isWhitespace).reverse

/-- Step `re.split(r'\s{2,}', desc)[0]`: the prefix up to (excluding) the first
run of two or more consecutive whitespace characters. -/
def firstSegment : List Char → List Char
  | [] => []
  | [c] => [c]
  | c :: d :: rest =>
      if c.isWhitespace && d.isWhitespace then []
      else c :: firstSegment (d :: rest)

/-- Step `re.sub(r'\s+\d+$', '', desc)`: if the string ends in one or more
whitespace characters followed by one or more digits, remove that tail
(the regex is end-anchored, so at most one removal, of the maximal
whitespace run and the trailing digit run). -/
def stripTrailingNumber (cs : List Char) : List Char :=
  let r := cs.reverse
  let ds := r.takeWhile Char.isDigit
  let r' := r.dropWhile Char.isDigit
  let ws := r'.takeWhile Char.isWhitespace
  if ds.isEmpty || ws.isEmpty then cs
  else (r'.dropWhile Char.isWhitespace).reverse

/-- Step `re.sub(r'\s+[A-Z]{2,3}$', '', desc)`: if the maximal trailing run of
uppercase ASCII letters has length 2 or 3 and is preceded by whitespace,
remove the run together with the whitespace before it.  (A trailing run of
1 or of 4+ uppercase letters never matches: `[A-Z]{2,3}` is anchored at the
end and `\s+` must end right where the letter run begins.) -/
def stripTrailingState (cs : List Char) : List Char :=
  let r := cs.reverse
  let ls := r.takeWhile Char.isUpper
  let r' := r.dropWhile Char.isUpper
  let ws := r'.takeWhile Char.isWhitespace
  if (ls.length = 2 || ls.length = 3) && !ws.isEmpty then
    (r'.dropWhile Char.isWhitespace).reverse
  else cs

/-- Function `extract_merchant_name` (src/app.py lines 39-48): strip, truncate at
the first double-space run, drop a trailing number token, drop a trailing
2-3 letter uppercase token, strip again.  Total: always returns a
(possibly empty) string. -/
def extract_merchant_name (description : String) : String :=
  String.mk (stripChars (stripTrailingState (stripTrailingNumber
    (firstSegment (stripChars description.data)))))

/-- Python `s.lower()` character by character (`Char.toLower` lowers the ASCII
range, which covers every description in play). -/
def lowerString (s : String) : String :=
  String.mk (s.data.map Char.toLower)

/-- The cache key derived from a description:
`extract_merchant_name(description).lower()`. -/
def cacheKeyOf (description : String) : String :=
  lowerString (extract_merchant_name description)

/-- The cache key of a transaction. -/
def merchantKey (t : Transaction) : String :=
  cacheKeyOf t.description

/-! ## Batch categorization (`categorize_transactions_batch`, src/app.py lines 51-130) -/

/-- One entry of the classifier's parsed JSON array, when that entry is a
JSON object (Python dict).  Each field is read with `result.get(...)`, so
each is optional. -/
structure RespEntry where
  id : Option Int := none
  category_code : Option String := none
  confidence : Option String := none
deriving DecidableEq

/-- Outcome of the external-classifier interaction, the input of the model
at the repository's service boundary.  The constructors correspond one to
one to the branches of the `try` block at src/app.py lines 105-128:
* `apiError`: `client.messages.create` (or reading the response content)
  raised — caught by the `except`, which applies the total fallback;
* `noJsonMatch`: the call succeeded but `re.search(r'\[[\s\S]*\]', ...)`
  found no bracketed span in the response text, so the `if json_match:`
  body is skipped and nothing is assigned (and nothing is raised);
* `badJson`: a bracketed span was found but `json.loads` on it raised —
  caught by the `except`, which applies the total fallback;
* `parsed rs`: `json.loads` produced a list; an element that is a JSON
  object is `some entry`, an element of any other shape is `none`
  (calling `.get` on it raises `AttributeError`, which the `except`
  catches with the total fallback). -/
inductive ClassifierOutcome where
  | apiError : ClassifierOutcome
  | noJsonMatch : ClassifierOutcome
  | badJson : ClassifierOutcome
  | parsed (results : List (Option RespEntry)) : ClassifierOutcome
deriving DecidableEq

/-- Does the transaction's merchant key hit the cache
(`merchant.lower() in merchant_cache`, src/app.py line 59)? -/
def isHit (cache : MerchantCache) (t : Transaction) : Bool :=
  (cacheLookup (merchantKey t) cache).isSome

/-- Tag a cache-hit transaction (src/app.py lines 60-63). -/
def tagHit (cache : MerchantCache) (t : Transaction) : Transaction :=
  match cacheLookup (merchantKey t) cache with
  | some e =>
      { t with ai_suggested_code := some e.category_code,
               ai_confidence := some "high",
               ai_from_cache := some true }
  | none => t

/-- The failure fallback applied to a cache-miss transaction
(src/app.py lines 125-128). -/
def fallbackTag (t : Transaction) : Transaction :=
  { t with ai_suggested_code := some "500",
           ai_confidence := some "low",
           ai_from_cache := some false }

/-- Assignment from one parsed object entry (src/app.py lines 119-121):
missing fields take the defaults `'500'` and `'low'`. -/
def applyEntry (e : RespEntry) (t : Transaction) : Transaction :=
  { t with ai_suggested_code := some (e.category_code.getD "500"),
           ai_confidence := some (e.confidence.getD "low"),
           ai_from_cache := some false }

/-- Does the assignment loop raise before finishing?  It does exactly when
some element at a position `< len(uncached_transactions)` is not a dict
(`result.get` raises `AttributeError`); elements at positions past the
miss list are never touched (`if i < len(uncached_transactions)`). -/
def hasBadEntry : List (Option RespEntry) → List Transaction → Bool
  | _, [] => false
  | [], _ => false
  | none :: _, _ :: _ => true
  | some _ :: rs, _ :: ts => hasBadEntry rs ts

/-- Positional assignment of parsed entries to the miss list
(src/app.py lines 117-121): entry `i` updates miss transaction `i`;
a miss transaction with no entry is left unchanged.  (Only called when
`hasBadEntry` is false, so the `none` case leaving `t` unchanged is
unreachable there.) -/
def assignResults : List (Option RespEntry) → List Transaction → List Transaction
  | _, [] => []
  | [], ts => ts
  | r :: rs, t :: ts =>
      (match r with
       | some e => applyEntry e t
       | none => t) :: assignResults rs ts

/-- What happens to the cache-miss sublist under a given classifier
outcome (src/app.py lines 105-128). -/
def categorizeMisses (outcome : ClassifierOutcome) (misses : List Transaction) :
    List Transaction :=
  match outcome with
  | .apiError => misses.map fallbackTag
  | .noJsonMatch => misses
  | .badJson => misses.map fallbackTag
  | .parsed rs =>
      if hasBadEntry rs misses then misses.map fallbackTag
      else assignResults rs misses

/-- Reassemble the full batch: cache hits are tagged in place, cache
misses are replaced, in order, by their updated versions.  This mirrors
the in-place mutation of the Python dicts shared between `transactions`
and `uncached_transactions`. -/
def mergeBack (cache : MerchantCache) : List Transaction → List Transaction →
    List Transaction
  | [], _ => []
  | t :: ts, ms =>
      if isHit cache t then tagHit cache t :: mergeBack cache ts ms
      else
        match ms with
        | m :: ms' => m :: mergeBack cache ts ms'
        | [] => t :: mergeBack cache ts []

/-- The cache-miss subset: the transactions rendered into the external
request prompt (`uncached_transactions`, src/app.py lines 56-65). -/
def missSubset (cache : MerchantCache) (transactions : List Transaction) :
    List Transaction :=
  transactions.filter (fun t => !isHit cache t)

/-- Function `categorize_transactions_batch` (src/app.py lines 51-130): tag cache
hits, return early if there is no cache miss (the external classifier is
not consulted), otherwise update the miss subset according to the
classifier outcome and return the full batch in original order. -/
def categorize_transactions_batch (cache : MerchantCache)
    (outcome : ClassifierOutcome) (transactions : List Transaction) :
    List Transaction :=
  let misses := missSubset cache transactions
  if misses.isEmpty then
    transactions.map (fun t => if isHit cache t then tagHit cache t else t)
  else
    mergeBack cache transactions (categorizeMisses outcome misses)

/-! ## Reconciliation operations -/

/-- Truthiness of `t.get('ai_suggested_code')` (src/app.py line 346):
a present, non-empty string. -/
def hasSuggestion (t : Transaction) : Bool :=
  match t.ai_suggested_code with
  | some s => s ≠ ""
  | none => false

/-- The guard of `reconcile_all`'s loop (src/app.py line 346):
`not t.get('reconciled') and t.get('ai_suggested_code')`. -/
def shouldTransition (t : Transaction) : Bool :=
  !t.reconciled && hasSuggestion t

/-- The state change applied to a transitioned transaction by
`reconcile_all` (src/app.py lines 347-348). -/
def acceptSuggestion (t : Transaction) : Transaction :=
  { t with category_code := t.ai_suggested_code, reconciled := true }

/-- The cache entry learned from a transitioned transaction
(src/app.py lines 352-357). -/
def learnFrom (t : Transaction) : CacheEntry :=
  { category_code := t.ai_suggested_code.getD "",
    confidence := "high",
    learned_from := t.id }

/-- Function `reconcile_all` (src/app.py lines 338-361): for every unreconciled
transaction carrying a truthy AI suggestion, accept the suggestion, mark
reconciled, learn the merchant mapping, and count it; everything else is
untouched.  Returns (transactions, cache, reconciled_count). -/
def reconcile_all : List Transaction → MerchantCache →
    List Transaction × MerchantCache × Nat
  | [], cache => ([], cache, 0)
  | t :: ts, cache =>
      if shouldTransition t then
        let out := reconcile_all ts (cacheInsert (merchantKey t) (learnFrom t) cache)
        (acceptSuggestion t :: out.1, out.2.1, out.2.2 + 1)
      else
        let out := reconcile_all ts cache
        (t :: out.1, out.2.1, out.2.2)

/-- The search-and-update loop of the single reconcile (src/app.py
lines 318-332): the first transaction with the given id gets the category,
is marked reconciled, and its merchant mapping is learned. -/
def reconcileGo (trans_id category_code : String) :
    List Transaction → MerchantCache → List Transaction × MerchantCache
  | [], cache => ([], cache)
  | t :: ts, cache =>
      if t.id = trans_id then
        ({ t with category_code := some category_code, reconciled := true } :: ts,
         cacheInsert (merchantKey t)
           { category_code := category_code, confidence := "high",
             learned_from := trans_id } cache)
      else
        let out := reconcileGo trans_id category_code ts cache
        (t :: out.1, out.2)

/-- Function `reconcile_transaction` (src/app.py lines 306-335): single reconcile.
A falsy (missing or empty) transaction id or category code is rejected
with a 400 before anything is loaded or saved. -/
def reconcile_transaction (trans_id category_code : String)
    (transactions : List Transaction) (cache : MerchantCache) :
    List Transaction × MerchantCache :=
  if trans_id = "" || category_code = "" then (transactions, cache)
  else reconcileGo trans_id category_code transactions cache

/-- The JSON body of a `PUT /api/transactions/<id>` request
(src/app.py lines 275-303).  The outer `Option` is key presence
(`'category_code' in data`); for `category_code` the inner `Option` is a
possibly-null value. -/
structure UpdatePayload where
  category_code : Option (Option String) := none
  reconciled : Option Bool := none
  note : Option String := none
  update_cache : Option Bool := none
deriving DecidableEq

/-- Truthiness of `data.get('category_code')` (src/app.py line 290):
key present with a non-null, non-empty string value. -/
def payloadCatTruthy (p : UpdatePayload) : Bool :=
  match p.category_code with
  | some (some s) => s ≠ ""
  | _ => false

/-- Field-by-field per-field update of a transaction (src/app.py
lines 282-287): only the keys present in the payload are written. -/
def applyUpdate (p : UpdatePayload) (t : Transaction) : Transaction :=
  let t1 := match p.category_code with
            | some v => { t with category_code := v }
            | none => t
  let t2 := match p.reconciled with
            | some b => { t1 with reconciled := b }
            | none => t1
  match p.note with
  | some s => { t2 with note := some s }
  | none => t2

/-- Function `api_transaction` (src/app.py lines 275-303): update-by-id.  The
first transaction with the given id receives the requested field updates; if the
payload's category code is truthy and `update_cache` (default true) is
truthy, the merchant mapping is learned. -/
def api_transaction (trans_id : String) (p : UpdatePayload) :
    List Transaction → MerchantCache → List Transaction × MerchantCache
  | [], cache => ([], cache)
  | t :: ts, cache =>
      if t.id = trans_id then
        let cache' :=
          if payloadCatTruthy p && p.update_cache.getD true then
            cacheInsert (merchantKey t)
              { category_code := (p.category_code.getD none).getD "",
                confidence := "high", learned_from := trans_id } cache
          else cache
        (applyUpdate p t :: ts, cache')
      else
        let out := api_transaction trans_id p ts cache
        (t :: out.1, out.2)

/-! ## Generic stable sort

Python's `list.sort(key=..., reverse=True)` and `sorted(..., reverse=True)`
are stable sorts in descending key order.  A stable sort's output is
uniquely determined by the comparison and the input order, so any stable
implementation is extensionally the source's sort; we use insertion sort.
`ge x y = true` means `x` may be placed before `y` (its key is ≥). -/

def insertOrd (ge : α → α → Bool) (x : α) : List α → List α
  | [] => [x]
  | y :: ys => if ge x y then x :: y :: ys else y :: insertOrd ge x ys

def sortOrd (ge : α → α → Bool) : List α → List α
  | [] => []
  | x :: xs => insertOrd ge x (sortOrd ge xs)

/-! ## CSV import (`upload_csv`, src/app.py lines 198-259) -/

/-- The Python-runtime functions used by the import, inputs of the model:
* `strptime_dmy s` is `datetime.strptime(s, '%d/%m/%Y')` followed by
  `strftime('%Y-%m-%d')`; `none` models the `ValueError` branch that
  keeps the raw string;
* `parse_float s` is `float(s)`; `none` models a `ValueError`, which the
  outer `try` turns into a 500 response with nothing saved;
* `pyhash s` is Python's `hash(s)` for this interpreter process.
All three are fixed (deterministic) functions of their string argument
within a run of the server. -/
structure PyRuntime where
  strptime_dmy : String → Option String
  parse_float : String → Option Rat
  pyhash : String → Int

/-- Result of processing one CSV row inside the loop at src/app.py
lines 217-242: rows with fewer than 3 fields are skipped; a `float()`
failure aborts the whole upload; otherwise a fresh transaction record. -/
inductive RowResult where
  | skip : RowResult
  | fail : RowResult
  | tx (t : Transaction) : RowResult
deriving DecidableEq

/-- The identity key (src/app.py line 232):
`f"{date_formatted}_{abs(amount)}_{hash(description) % 10000}"`.
The rational's string form stands in for the float repr; the key is a
deterministic function of (formatted date, |amount|, description hash). -/
def transIdOf (rt : PyRuntime) (date_formatted : String) (amount : Rat)
    (description : String) : String :=
  date_formatted ++ "_" ++ toString |amount| ++ "_" ++
    toString (rt.pyhash description % 10000)

/-- Python `s.replace(c, '')` for a one-character pattern: drop every occurrence
of the character. -/
def removeChar (c : Char) (s : String) : String :=
  String.mk (s.data.filter (fun d => d ≠ c))

/-- Python `s.strip()`. -/
def pyStrip (s : String) : String :=
  String.mk (stripChars s.data)

/-- Parse one CSV row (src/app.py lines 218-242). -/
def parseRow (rt : PyRuntime) (row : List String) : RowResult :=
  match row with
  | date_str :: amount_str :: description :: _ =>
      let date_formatted := (rt.strptime_dmy date_str).getD date_str
      match rt.parse_float (removeChar ',' (removeChar '\x22' amount_str)) with
      | none => .fail
      | some amount =>
          .tx { id := transIdOf rt date_formatted amount description,
                date := date_formatted,
                amount := amount,
                description := pyStrip description,
                category_code := none,
                reconciled := false }
  | _ => .skip

/-- The row loop (src/app.py lines 216-242): collect the new transactions
whose identity key is not among `existing_ids`; `none` models the
`ValueError` abort.  `existing_ids` is computed once, before the loop, and
never extended — rows within the same file are not checked against each
other. -/
def buildNew (rt : PyRuntime) (existing_ids : List String) :
    List (List String) → Option (List Transaction)
  | [] => some []
  | row :: rows =>
      match parseRow rt row with
      | .fail => none
      | .skip => buildNew rt existing_ids rows
      | .tx t =>
          if existing_ids.contains t.id then buildNew rt existing_ids rows
          else (buildNew rt existing_ids rows).map (fun l => t :: l)

/-- Python `transactions.sort(key=lambda x: x['date'], reverse=True)`
(src/app.py line 249). -/
def sortByDateDesc (ts : List Transaction) : List Transaction :=
  sortOrd (fun a b => decide (b.date ≤ a.date)) ts

/-- Function `upload_csv` (src/app.py lines 198-259): parse rows, drop those whose
identity key is already stored, AI-categorize the remainder, append, sort
by date descending, save.  Returns `some (new store, imported count)` on
success and `none` on the 500/abort path (store unchanged on disk). -/
def upload_csv (rt : PyRuntime) (cache : MerchantCache)
    (outcome : ClassifierOutcome) (store : List Transaction)
    (rows : List (List String)) : Option (List Transaction × Nat) :=
  match buildNew rt (store.map (fun t => t.id)) rows with
  | none => none
  | some new_transactions =>
      if new_transactions.isEmpty then some (store, 0)
      else
        some (sortByDateDesc
                (store ++ categorize_transactions_batch cache outcome new_transactions),
              new_transactions.length)

/-- The persisted transaction store after an upload: on the abort path
nothing was saved, so the store is unchanged. -/
def uploadStore (rt : PyRuntime) (cache : MerchantCache)
    (outcome : ClassifierOutcome) (store : List Transaction)
    (rows : List (List String)) : List Transaction :=
  match upload_csv rt cache outcome store rows with
  | some (s, _) => s
  | none => store

/-! ## Aggregation (`api_analysis`, src/app.py lines 373-418) -/

/-- Eligibility filter (src/app.py lines 380-387): the `type` query
parameter defaults to `"expenses"`; only reconciled transactions are ever
eligible. -/
def eligible (transaction_type : String) (t : Transaction) : Bool :=
  if transaction_type = "expenses" then t.reconciled && t.amount < 0
  else if transaction_type = "income" then t.reconciled && t.amount > 0
  else t.reconciled

/-- One grouping bucket: the raw grouping key (`t.get('category_code',
'500')`; the key is always present on stored records, so this is the
stored, possibly-null value), the running total of absolute amounts, and
the member transactions in arrival order. -/
structure Bucket where
  key : Option String
  total : Rat
  transactions : List Transaction
deriving DecidableEq

/-- Add one transaction to the bucket list (src/app.py lines 393-402):
Python dicts keep insertion order, so a new key appends a bucket. -/
def addToBuckets (t : Transaction) : List Bucket → List Bucket
  | [] => [{ key := t.category_code, total := |t.amount|, transactions := [t] }]
  | b :: bs =>
      if b.key = t.category_code then
        { b with total := b.total + |t.amount|,
                 transactions := b.transactions ++ [t] } :: bs
      else b :: addToBuckets t bs

/-- The grouping loop over the filtered transactions. -/
def bucketsOf (filtered : List Transaction) : List Bucket :=
  filtered.foldl (fun bs t => addToBuckets t bs) []

/-- Round a rational to the nearest integer, ties to even. -/
def halfEvenInt (c : Rat) : Int :=
  if c - ⌊c⌋ < 1/2 then ⌊c⌋
  else if 1/2 < c - ⌊c⌋ then ⌊c⌋ + 1
  else if ⌊c⌋ % 2 = 0 then ⌊c⌋ else ⌊c⌋ + 1

/-- Python `round(x, 2)` idealized over exact rationals: round to the nearest
multiple of 1/100, ties to even (Python's round is half-to-even; on the
binary floats behind it, differences from this exact model can only arise
at values not exactly representable, which none of the claims use). -/
def round2 (q : Rat) : Rat :=
  (halfEvenInt (q * 100) : Int) / 100

/-- One element of the `/api/analysis` response (src/app.py
lines 408-416). -/
structure AnalysisGroup where
  code : Option String
  name : String
  type : String
  total : Rat
  transactions : List Transaction
deriving DecidableEq

/-- Lookup `category_map.get(code, {'name': 'Unknown', 'type': 'variable'})`
(src/app.py lines 405, 409): the dict comprehension keeps the last
category with a given code; a null grouping key matches no category. -/
def lookupCategory (categories : List Category) : Option String → Option Category
  | none => none
  | some c => categories.reverse.find? (fun cat => cat.code = c)

/-- Render one bucket into a response group. -/
def bucketToGroup (categories : List Category) (b : Bucket) : AnalysisGroup :=
  match lookupCategory categories b.key with
  | some cat =>
      { code := b.key, name := cat.name, type := cat.type,
        total := round2 b.total, transactions := b.transactions }
  | none =>
      { code := b.key, name := "Unknown", type := "variable",
        total := round2 b.total, transactions := b.transactions }

/-- Function `api_analysis` (src/app.py lines 373-418): filter to eligible
transactions, group by the stored category code, sort the groups by
total descending (stable), and render each with its category name or the
`Unknown` placeholder. -/
def api_analysis (transactions : List Transaction) (categories : List Category)
    (transaction_type : String) : List AnalysisGroup :=
  (sortOrd (fun a b => decide (b.total ≤ a.total))
      (bucketsOf (transactions.filter (eligible transaction_type)))).map
    (bucketToGroup categories)

/-! ## Lemmas about the stable sort -/

theorem insertOrd_perm (ge : α → α → Bool) (x : α) (l : List α) :
    List.Perm (insertOrd ge x l) (x :: l) := by
  induction l with
  | nil => simp [insertOrd]
  | cons y ys ih =>
      simp only [insertOrd]
      by_cases h : ge x y
      · simp [h]
      · simp only [h, if_false]
        exact (List.Perm.cons y ih).trans (List.Perm.swap x y ys)

theorem sortOrd_perm (ge : α → α → Bool) (l : List α) :
    List.Perm (sortOrd ge l) l := by
  induction l with
  | nil => simp [sortOrd]
  | cons x xs ih =>
      exact (insertOrd_perm ge x (sortOrd ge xs)).trans (List.Perm.cons x ih)

theorem mem_sortOrd (ge : α → α → Bool) (l : List α) (a : α) :
    a ∈ sortOrd ge l ↔ a ∈ l :=
  (sortOrd_perm ge l).mem_iff

theorem chain_insertOrd (ge : α → α → Bool)
    (htot : ∀ a b : α, ge a b = true ∨ ge b a = true) (x : α) (l : List α)
    (h : List.Chain' (fun a b => ge a b = true) l) :
    List.Chain' (fun a b => ge a b = true) (insertOrd ge x l) := by
  induction l with
  | nil => simp [insertOrd]
  | cons y ys ih =>
      simp only [insertOrd]
      by_cases hxy : ge x y
      · simp only [hxy, if_true]
        exact List.chain'_cons.mpr ⟨hxy, h⟩
      · simp only [hxy, if_false]
        have hyx : ge y x = true := (htot x y).resolve_left (fun c => hxy c)
        have hys : List.Chain' (fun a b => ge a b = true) ys := h.tail
        have htail := ih hys
        cases ys with
        | nil => exact List.chain'_pair.mpr hyx
        | cons z zs =>
            simp only [insertOrd] at htail ⊢
            by_cases hxz : ge x z
            · simp only [hxz, if_true] at htail ⊢
              exact List.chain'_cons.mpr ⟨hyx, htail⟩
            · simp only [hxz, if_false] at htail ⊢
              exact List.chain'_cons.mpr ⟨(List.chain'_cons.mp h).1, htail⟩

theorem chain_sortOrd (ge : α → α → Bool)
    (htot : ∀ a b : α, ge a b = true ∨ ge b a = true) (l : List α) :
    List.Chain' (fun a b => ge a b = true) (sortOrd ge l) := by
  induction l with
  | nil => simp [sortOrd]
  | cons x xs ih => exact chain_insertOrd ge htot x (sortOrd ge xs) ih

/-! ## Lemmas about batch categorization -/

theorem isHit_nil (t : Transaction) : isHit [] t = false := rfl

theorem missSubset_cons_hit (cache : MerchantCache) (t : Transaction)
    (ts : List Transaction) (h : isHit cache t = true) :
    missSubset cache (t :: ts) = missSubset cache ts := by
  simp [missSubset, List.filter_cons, h]

theorem missSubset_cons_miss (cache : MerchantCache) (t : Transaction)
    (ts : List Transaction) (h : isHit cache t = false) :
    missSubset cache (t :: ts) = t :: missSubset cache ts := by
  simp [missSubset, List.filter_cons, h]

theorem mergeBack_map (cache : MerchantCache) (g : Transaction → Transaction)
    (ts : List Transaction) :
    mergeBack cache ts ((missSubset cache ts).map g) =
      ts.map (fun t => if isHit cache t then tagHit cache t else g t) := by
  induction ts with
  | nil => rfl
  | cons t ts ih =>
      by_cases h : isHit cache t
      · rw [missSubset_cons_hit cache t ts h, List.map_cons]
        simp only [mergeBack, h, if_true]
        rw [ih]
      · rw [Bool.not_eq_true] at h
        rw [missSubset_cons_miss cache t ts h, List.map_cons, List.map_cons]
        simp only [mergeBack, h, Bool.false_eq_true, if_false]
        rw [ih]

theorem length_assignResults (rs : List (Option RespEntry)) (ts : List Transaction) :
    (assignResults rs ts).length = ts.length := by
  induction rs generalizing ts with
  | nil => cases ts <;> rfl
  | cons r rs ih =>
      cases ts with
      | nil => rfl
      | cons t ts => simp [assignResults, ih]

theorem hasBadEntry_nil (rs : List (Option RespEntry)) :
    hasBadEntry rs [] = false := by
  cases rs with
  | nil => rfl
  | cons r rs => cases r <;> rfl

theorem assignResults_nil (rs : List (Option RespEntry)) :
    assignResults rs [] = [] := by
  cases rs with
  | nil => rfl
  | cons r rs => cases r <;> rfl

theorem categorizeMisses_nil (o : ClassifierOutcome) : categorizeMisses o [] = [] := by
  cases o with
  | apiError => rfl
  | noJsonMatch => rfl
  | badJson => rfl
  | parsed rs => simp [categorizeMisses, hasBadEntry_nil, assignResults_nil]

theorem length_categorizeMisses (o : ClassifierOutcome) (ms : List Transaction) :
    (categorizeMisses o ms).length = ms.length := by
  cases o with
  | apiError => simp [categorizeMisses]
  | noJsonMatch => rfl
  | badJson => simp [categorizeMisses]
  | parsed rs =>
      simp only [categorizeMisses]
      by_cases h : hasBadEntry rs ms
      · simp [h]
      · simp [h, length_assignResults]

theorem mergeBack_nil_cache (ts ms : List Transaction)
    (h : ms.length = ts.length) : mergeBack [] ts ms = ms := by
  induction ts generalizing ms with
  | nil => cases ms with
      | nil => rfl
      | cons m ms => simp at h
  | cons t ts ih =>
      cases ms with
      | nil => simp at h
      | cons m ms =>
          simp only [mergeBack, isHit_nil, Bool.false_eq_true, if_false]
          simp only [List.length_cons, Nat.succ_inj] at h
          rw [ih ms h]

theorem missSubset_nil_cache (ts : List Transaction) : missSubset [] ts = ts := by
  simp [missSubset, isHit_nil]

/-- With an empty merchant cache every transaction is a cache miss, and the
batch is exactly the miss subset. -/
theorem categorize_nil_cache (o : ClassifierOutcome) (ts : List Transaction) :
    categorize_transactions_batch [] o ts = categorizeMisses o ts := by
  cases ts with
  | nil =>
      simp only [categorize_transactions_batch, missSubset_nil_cache, List.isEmpty_nil,
        if_true, List.map_nil]
      rw [categorizeMisses_nil]
  | cons t ts =>
      simp only [categorize_transactions_batch, missSubset_nil_cache, List.isEmpty_cons,
        if_false]
      exact mergeBack_nil_cache _ _ (length_categorizeMisses o (t :: ts))

theorem categorize_apiError (cache : MerchantCache) (ts : List Transaction) :
    categorize_transactions_batch cache ClassifierOutcome.apiError ts =
      ts.map (fun t => if isHit cache t then tagHit cache t else fallbackTag t) := by
  simp only [categorize_transactions_batch]
  by_cases h : (missSubset cache ts).isEmpty
  · simp only [h, if_true]
    apply List.map_congr_left
    intro t ht
    have hhit : isHit cache t = true := by
      by_contra hmiss
      have : t ∈ missSubset cache ts := by
        simp [missSubset, List.mem_filter, ht, hmiss]
      rw [List.isEmpty_iff] at h
      simp [h] at this
    simp [hhit]
  · simp only [h, if_false]
    exact mergeBack_map cache fallbackTag ts

theorem categorize_badJson (cache : MerchantCache) (ts : List Transaction) :
    categorize_transactions_batch cache ClassifierOutcome.badJson ts =
      ts.map (fun t => if isHit cache t then tagHit cache t else fallbackTag t) := by
  simp only [categorize_transactions_batch]
  by_cases h : (missSubset cache ts).isEmpty
  · simp only [h, if_true]
    apply List.map_congr_left
    intro t ht
    have hhit : isHit cache t = true := by
      by_contra hmiss
      have : t ∈ missSubset cache ts := by
        simp [missSubset, List.mem_filter, ht, hmiss]
      rw [List.isEmpty_iff] at h
      simp [h] at this
    simp [hhit]
  · simp only [h, if_false]
    exact mergeBack_map cache fallbackTag ts

theorem categorize_noJsonMatch (cache : MerchantCache) (ts : List Transaction) :
    categorize_transactions_batch cache ClassifierOutcome.noJsonMatch ts =
      ts.map (fun t => if isHit cache t then tagHit cache t else t) := by
  simp only [categorize_transactions_batch]
  by_cases h : (missSubset cache ts).isEmpty
  · simp only [h, if_true]
  · simp only [h, if_false]
    have := mergeBack_map cache (fun t => t) ts
    simp only [List.map_id_fun, id] at this
    simpa [categorizeMisses] using this

theorem map_assignResults (f : Transaction → β)
    (hap : ∀ e t, f (applyEntry e t) = f t)
    (rs : List (Option RespEntry)) (ts : List Transaction) :
    (assignResults rs ts).map f = ts.map f := by
  induction rs generalizing ts with
  | nil => cases ts <;> rfl
  | cons r rs ih =>
      cases ts with
      | nil => rfl
      | cons t ts =>
          cases r with
          | none => simp [assignResults, ih]
          | some e => simp [assignResults, ih, hap]

theorem map_categorizeMisses (f : Transaction → β)
    (hfb : ∀ t, f (fallbackTag t) = f t)
    (hap : ∀ e t, f (applyEntry e t) = f t)
    (o : ClassifierOutcome) (ms : List Transaction) :
    (categorizeMisses o ms).map f = ms.map f := by
  cases o with
  | apiError => simp [categorizeMisses, hfb]
  | noJsonMatch => rfl
  | badJson => simp [categorizeMisses, hfb]
  | parsed rs =>
      simp only [categorizeMisses]
      by_cases h : hasBadEntry rs ms
      · simp [h, hfb]
      · simp [h, map_assignResults f hap]

theorem map_mergeBack (f : Transaction → β) (cache : MerchantCache)
    (htag : ∀ t, f (tagHit cache t) = f t)
    (ts ms : List Transaction)
    (hms : ms.map f = (missSubset cache ts).map f) :
    (mergeBack cache ts ms).map f = ts.map f := by
  induction ts generalizing ms with
  | nil => cases ms <;> rfl
  | cons t ts ih =>
      by_cases h : isHit cache t
      · rw [missSubset_cons_hit cache t ts h] at hms
        simp only [mergeBack, h, if_true, List.map_cons, htag]
        rw [ih ms hms]
      · rw [Bool.not_eq_true] at h
        rw [missSubset_cons_miss cache t ts h, List.map_cons] at hms
        cases ms with
        | nil => simp at hms
        | cons m ms' =>
            simp only [List.map_cons, List.cons.injEq] at hms
            simp only [mergeBack, h, Bool.false_eq_true, if_false, List.map_cons]
            rw [hms.1, ih ms' hms.2]

/-- Categorization changes only the `ai_*` fields: any projection that
ignores them (id, date, amount, description, category code, reconciled,
note) is preserved across the whole batch. -/
theorem map_categorize (f : Transaction → β) (cache : MerchantCache)
    (o : ClassifierOutcome) (ts : List Transaction)
    (htag : ∀ t, f (tagHit cache t) = f t)
    (hfb : ∀ t, f (fallbackTag t) = f t)
    (hap : ∀ e t, f (applyEntry e t) = f t) :
    (categorize_transactions_batch cache o ts).map f = ts.map f := by
  simp only [categorize_transactions_batch]
  by_cases h : (missSubset cache ts).isEmpty
  · simp only [h, if_true, List.map_map]
    apply List.map_congr_left
    intro t _
    by_cases hh : isHit cache t <;> simp [hh, htag]
  · simp only [h, if_false]
    exact map_mergeBack f cache htag ts _
      (map_categorizeMisses f hfb hap o (missSubset cache ts))

theorem tagHit_id (cache : MerchantCache) (t : Transaction) :
    (tagHit cache t).id = t.id := by
  unfold tagHit
  cases cacheLookup (merchantKey t) cache <;> rfl

theorem tagHit_reconciled (cache : MerchantCache) (t : Transaction) :
    (tagHit cache t).reconciled = t.reconciled := by
  unfold tagHit
  cases cacheLookup (merchantKey t) cache <;> rfl

/-- The ids of the batch are unchanged by categorization. -/
theorem categorize_map_id (cache : MerchantCache) (o : ClassifierOutcome)
    (ts : List Transaction) :
    (categorize_transactions_batch cache o ts).map (fun t => t.id) =
      ts.map (fun t => t.id) :=
  map_categorize (fun t => t.id) cache o ts (tagHit_id cache)
    (fun _ => rfl) (fun _ _ => rfl)

/-- The reconciled flags of the batch are unchanged by categorization. -/
theorem categorize_map_reconciled (cache : MerchantCache) (o : ClassifierOutcome)
    (ts : List Transaction) :
    (categorize_transactions_batch cache o ts).map (fun t => t.reconciled) =
      ts.map (fun t => t.reconciled) :=
  map_categorize (fun t => t.reconciled) cache o ts (tagHit_reconciled cache)
    (fun _ => rfl) (fun _ _ => rfl)

theorem mergeBack_getElem_hit (cache : MerchantCache) (ts : List Transaction) :
    ∀ (ms : List Transaction) (i : Nat) (t : Transaction), ts[i]? = some t →
      isHit cache t = true → (mergeBack cache ts ms)[i]? = some (tagHit cache t) := by
  induction ts with
  | nil => intro ms i t h _; simp at h
  | cons u ts ih =>
      intro ms i t h hhit
      cases i with
      | zero =>
          simp only [List.getElem?_cons_zero, Option.some.injEq] at h
          subst h
          simp only [mergeBack, hhit, if_true, List.getElem?_cons_zero]
      | succ n =>
          simp only [List.getElem?_cons_succ] at h
          by_cases hu : isHit cache u
          · simp only [mergeBack, hu, if_true, List.getElem?_cons_succ]
            exact ih ms n t h hhit
          · rw [Bool.not_eq_true] at hu
            simp only [mergeBack, hu, Bool.false_eq_true, if_false]
            cases ms with
            | nil => simp only [List.getElem?_cons_succ]; exact ih [] n t h hhit
            | cons m ms' =>
                simp only [List.getElem?_cons_succ]
                exact ih ms' n t h hhit

/-- Positional form: a cache hit at position `i` of the batch comes out
tagged with the cached code at high confidence, for every outcome. -/
theorem categorize_getElem_hit (cache : MerchantCache) (o : ClassifierOutcome)
    (ts : List Transaction) (i : Nat) (t : Transaction)
    (h : ts[i]? = some t) (hhit : isHit cache t = true) :
    (categorize_transactions_batch cache o ts)[i]? = some (tagHit cache t) := by
  simp only [categorize_transactions_batch]
  by_cases he : (missSubset cache ts).isEmpty
  · simp only [he, if_true, List.getElem?_map, h]
    simp [hhit]
  · simp only [he, if_false]
    exact mergeBack_getElem_hit cache ts _ i t h hhit

theorem assignResults_getElem_entry :
    ∀ (rs : List (Option RespEntry)) (ts : List Transaction) (i : Nat)
      (e : RespEntry) (t : Transaction), rs[i]? = some (some e) → ts[i]? = some t →
      (assignResults rs ts)[i]? = some (applyEntry e t) := by
  intro rs
  induction rs with
  | nil => intro ts i e t hr _; simp at hr
  | cons r rs ih =>
      intro ts i e t hr ht
      cases ts with
      | nil => simp at ht
      | cons u ts =>
          cases i with
          | zero =>
              simp only [List.getElem?_cons_zero, Option.some.injEq] at hr ht
              subst hr; subst ht
              simp [assignResults]
          | succ n =>
              simp only [List.getElem?_cons_succ] at hr ht
              cases r with
              | none => simpa [assignResults] using ih ts n e t hr ht
              | some e' => simpa [assignResults] using ih ts n e t hr ht

theorem assignResults_getElem_past :
    ∀ (rs : List (Option RespEntry)) (ts : List Transaction) (i : Nat)
      (t : Transaction), rs.length ≤ i → ts[i]? = some t →
      (assignResults rs ts)[i]? = some t := by
  intro rs
  induction rs with
  | nil =>
      intro ts i t _ ht
      cases ts with
      | nil => simp at ht
      | cons u ts => simpa [assignResults] using ht
  | cons r rs ih =>
      intro ts i t hlen ht
      cases ts with
      | nil => simp at ht
      | cons u ts =>
          cases i with
          | zero => simp at hlen
          | succ n =>
              simp only [List.getElem?_cons_succ] at ht
              have hlen' : rs.length ≤ n := Nat.le_of_succ_le_succ hlen
              cases r with
              | none => simpa [assignResults] using ih ts n t hlen' ht
              | some e' => simpa [assignResults] using ih ts n t hlen' ht

/-! ## Concrete fixtures used in closed statements -/

/-- A freshly imported transaction whose merchant is not cached: all
`ai_*` fields unset, as `upload_csv` creates it. -/
def sampleMiss : Transaction :=
  { id := "2024-01-01_5_0", date := "2024-01-01", amount := -5,
    description := "ACME", category_code := none, reconciled := false }

/-- A one-entry merchant cache mapping key `"acme"` to code `"100"`. -/
def sampleCache : MerchantCache :=
  [("acme", { category_code := "100", confidence := "high", learned_from := "t0" })]

/-- A transaction whose description normalizes to cache key `"acme"`. -/
def sampleHitTx : Transaction :=
  { id := "h1", date := "2024-01-02", amount := -3, description := "ACME 123",
    category_code := none, reconciled := false }

/-! ## Claim C1 -/

/-- C1 (counterexample): with an empty cache, the one-element batch is
entirely the miss subset, and when the classifier's response text contains
no bracketed JSON array (a response that cannot be parsed), the miss
transaction's ai fields are left unset — not set to the default
`'500'`/`'low'` as the claim requires for every parse failure. -/
theorem C1_counterexample :
    missSubset [] [sampleMiss] = [sampleMiss] ∧
    categorize_transactions_batch [] ClassifierOutcome.noJsonMatch [sampleMiss] =
      [sampleMiss] ∧
    sampleMiss.ai_suggested_code = none ∧ sampleMiss.ai_confidence = none := by
  refine ⟨by decide, ?_, rfl, rfl⟩
  decide

/-- C1 (amended): if the external call raises, or the bracketed array
extracted from the response fails JSON decoding, then every cache-miss
transaction of the batch is marked with the default code `'500'` at
confidence `'low'` (`fallbackTag`) — a total fallback, with the full batch
returned; if instead the response contains no bracketed array at all, the
full batch is still returned without raising, but the miss transactions
keep their ai fields untouched (unset if they were unset). -/
theorem C1_amended_fallback (cache : MerchantCache) (o : ClassifierOutcome)
    (ts : List Transaction) (ho : o = ClassifierOutcome.apiError ∨ o = ClassifierOutcome.badJson) :
    categorize_transactions_batch cache o ts =
      ts.map (fun t => if isHit cache t then tagHit cache t else fallbackTag t) ∧
    (categorize_transactions_batch cache o ts).length = ts.length ∧
    categorize_transactions_batch cache ClassifierOutcome.noJsonMatch ts =
      ts.map (fun t => if isHit cache t then tagHit cache t else t) ∧
    (categorize_transactions_batch cache ClassifierOutcome.noJsonMatch ts).length
      = ts.length := by
  have h1 : categorize_transactions_batch cache o ts =
      ts.map (fun t => if isHit cache t then tagHit cache t else fallbackTag t) := by
    rcases ho with h | h <;> subst h
    · exact categorize_apiError cache ts
    · exact categorize_badJson cache ts
  refine ⟨h1, by rw [h1, List.length_map], categorize_noJsonMatch cache ts, ?_⟩
  rw [categorize_noJsonMatch cache ts, List.length_map]

/-- C1 witness: the amended statement applied at a concrete failing call
on a concrete one-miss batch. -/
theorem C1_amended_fallback_witness :
    categorize_transactions_batch [] ClassifierOutcome.apiError [sampleMiss] =
      [sampleMiss].map (fun t => if isHit [] t then tagHit [] t else fallbackTag t) ∧
    (categorize_transactions_batch [] ClassifierOutcome.apiError [sampleMiss]).length
      = [sampleMiss].length ∧
    categorize_transactions_batch [] ClassifierOutcome.noJsonMatch [sampleMiss] =
      [sampleMiss].map (fun t => if isHit [] t then tagHit [] t else t) ∧
    (categorize_transactions_batch [] ClassifierOutcome.noJsonMatch [sampleMiss]).length
      = [sampleMiss].length :=
  C1_amended_fallback [] ClassifierOutcome.apiError [sampleMiss] (Or.inl rfl)

/-! ## Claim C3 -/

/-- C3: every cache-hit transaction is tagged with the cached category
code at confidence `'high'` and `ai_from_cache = true` (for any classifier
outcome); a cache hit is never part of the miss subset that is rendered
into the external request; and if every transaction of the batch is a
cache hit, the result does not depend on the external classifier at all —
it is the tagged batch, whatever the classifier would have answered. -/
theorem C3_cache_first (cache : MerchantCache) (o : ClassifierOutcome)
    (ts : List Transaction) :
    (∀ (i : Nat) (t : Transaction) (e : CacheEntry), ts[i]? = some t →
        cacheLookup (merchantKey t) cache = some e →
        (categorize_transactions_batch cache o ts)[i]? =
          some { t with ai_suggested_code := some e.category_code,
                        ai_confidence := some "high",
                        ai_from_cache := some true }) ∧
    (∀ t ∈ ts, isHit cache t = true → t ∉ missSubset cache ts) ∧
    ((∀ t ∈ ts, isHit cache t = true) →
      ∀ o₂ : ClassifierOutcome,
        categorize_transactions_batch cache o ts =
          categorize_transactions_batch cache o₂ ts ∧
        categorize_transactions_batch cache o ts =
          ts.map (fun t => tagHit cache t)) := by
  refine ⟨?_, ?_, ?_⟩
  · intro i t e ht he
    have hhit : isHit cache t = true := by simp [isHit, he]
    have := categorize_getElem_hit cache o ts i t ht hhit
    rw [this]
    simp [tagHit, he]
  · intro t _ hhit hmem
    simp only [missSubset, List.mem_filter] at hmem
    rw [hhit] at hmem
    simp at hmem
  · intro hall o₂
    have hemp : missSubset cache ts = [] := by
      simp only [missSubset, List.filter_eq_nil_iff]
      intro t ht
      simp [hall t ht]
    constructor
    · simp only [categorize_transactions_batch, hemp, List.isEmpty_nil, if_true]
    · simp only [categorize_transactions_batch, hemp, List.isEmpty_nil, if_true]
      apply List.map_congr_left
      intro t ht
      simp [hall t ht]

/-- C3 witness: a concrete hit batch over the one-entry cache. -/
theorem C3_cache_first_witness :
    (categorize_transactions_batch sampleCache ClassifierOutcome.apiError [sampleHitTx])[0]? =
      some { sampleHitTx with ai_suggested_code := some "100",
                              ai_confidence := some "high",
                              ai_from_cache := some true } :=
  (C3_cache_first sampleCache ClassifierOutcome.apiError [sampleHitTx]).1 0 sampleHitTx
    { category_code := "100", confidence := "high", learned_from := "t0" }
    (by decide) (by decide)

/-! ## Claim C7 -/

/-- C7 (counterexample): a response entry that is a JSON object with no
`category_code` field is malformed in the claim's sense, yet the code does
not skip it leaving the transaction unset — it substitutes the defaults
`'500'`/`'low'` for the missing fields. -/
theorem C7_counterexample :
    categorize_transactions_batch []
        (ClassifierOutcome.parsed [some ({} : RespEntry)]) [sampleMiss] =
      [{ sampleMiss with ai_suggested_code := some "500",
                         ai_confidence := some "low",
                         ai_from_cache := some false }] := by
  decide

/-- C7 (amended): over a successfully decoded response array (batch shown
with an empty cache, so the whole batch is the miss subset): the batch
never crashes and keeps its length; when no entry within range is a
non-object, a transaction past the end of the array is left untouched
(ai fields unset) and a transaction whose entry is an object receives that
entry's fields, with defaults `'500'`/`'low'` substituted for missing
fields; matching is by list position; and if any entry within range is not
an object, the whole miss subset receives the total `'500'`/`'low'`
fallback. -/
theorem C7_response_entries (rs : List (Option RespEntry)) (ts : List Transaction) :
    (categorize_transactions_batch [] (ClassifierOutcome.parsed rs) ts).length
      = ts.length ∧
    (hasBadEntry rs ts = false →
      ∀ (i : Nat) (t : Transaction), ts[i]? = some t →
        (rs.length ≤ i →
          (categorize_transactions_batch [] (ClassifierOutcome.parsed rs) ts)[i]?
            = some t) ∧
        (∀ e : RespEntry, rs[i]? = some (some e) →
          (categorize_transactions_batch [] (ClassifierOutcome.parsed rs) ts)[i]?
            = some { t with ai_suggested_code := some (e.category_code.getD "500"),
                            ai_confidence := some (e.confidence.getD "low"),
                            ai_from_cache := some false })) ∧
    (hasBadEntry rs ts = true →
      categorize_transactions_batch [] (ClassifierOutcome.parsed rs) ts =
        ts.map fallbackTag) := by
  have hnil := categorize_nil_cache (ClassifierOutcome.parsed rs) ts
  refine ⟨?_, ?_, ?_⟩
  · rw [hnil, length_categorizeMisses]
  · intro hgood i t ht
    rw [hnil]
    simp only [categorizeMisses, hgood, Bool.false_eq_true, if_false]
    constructor
    · intro hpast
      exact assignResults_getElem_past rs ts i t hpast ht
    · intro e he
      have := assignResults_getElem_entry rs ts i e t he ht
      rw [this]
      rfl
  · intro hbad
    rw [hnil]
    simp [categorizeMisses, hbad]

/-- C7 witness: a two-transaction miss batch against a one-entry response
array whose single entry is an object carrying only a category code: the
first transaction gets the entry (confidence defaulting to `'low'`), the
second is past the end of the array and stays unset. -/
theorem C7_response_entries_witness :
    (categorize_transactions_batch []
        (ClassifierOutcome.parsed [some { category_code := some "200" }])
        [sampleMiss, sampleHitTx])[1]? = some sampleHitTx ∧
    (categorize_transactions_batch []
        (ClassifierOutcome.parsed [some { category_code := some "200" }])
        [sampleMiss, sampleHitTx])[0]? =
      some { sampleMiss with ai_suggested_code := some "200",
                             ai_confidence := some "low",
                             ai_from_cache := some false } := by
  have h := C7_response_entries [some { category_code := some "200" }]
    [sampleMiss, sampleHitTx]
  refine ⟨(h.2.1 (by decide) 1 sampleHitTx (by decide)).1 (by decide), ?_⟩
  exact (h.2.1 (by decide) 0 sampleMiss (by decide)).2
    { category_code := some "200" } (by decide)

/-! ## Lemmas about the merchant cache and reconciliation -/

theorem cacheLookup_cons (k1 : String) (v1 : CacheEntry) (c : MerchantCache)
    (k : String) :
    cacheLookup k ((k1, v1) :: c) = if k1 = k then some v1 else cacheLookup k c := by
  by_cases h : k1 = k <;> simp [cacheLookup, List.find?_cons, h]

theorem cacheLookup_cacheInsert_self (k : String) (v : CacheEntry)
    (c : MerchantCache) : cacheLookup k (cacheInsert k v c) = some v := by
  induction c with
  | nil => simp [cacheInsert, cacheLookup]
  | cons p c ih =>
      obtain ⟨k1, v1⟩ := p
      by_cases h : k1 = k
      · simp [cacheInsert, h, cacheLookup_cons]
      · simp only [cacheInsert, h, if_false]
        rw [cacheLookup_cons k1 v1 _ k, if_neg h]
        exact ih

theorem cacheLookup_cacheInsert_other (k k' : String) (v : CacheEntry)
    (c : MerchantCache) (h : k ≠ k') :
    cacheLookup k (cacheInsert k' v c) = cacheLookup k c := by
  induction c with
  | nil => simp [cacheInsert, cacheLookup, Ne.symm h]
  | cons p c ih =>
      obtain ⟨k1, v1⟩ := p
      by_cases hp : k1 = k'
      · subst hp
        rw [show cacheInsert k1 v ((k1, v1) :: c) = (k1, v) :: c from by
          simp [cacheInsert]]
        rw [cacheLookup_cons k1 v c k, cacheLookup_cons k1 v1 c k,
          if_neg (Ne.symm h), if_neg (Ne.symm h)]
      · simp only [cacheInsert, hp, if_false]
        rw [cacheLookup_cons k1 v1 _ k, cacheLookup_cons k1 v1 c k]
        by_cases hk : k1 = k
        · simp [hk]
        · rw [if_neg hk, if_neg hk]
          exact ih

/-- The cache maps key `k` to some entry with confidence `"high"`. -/
def HighAt (c : MerchantCache) (k : String) : Prop :=
  ∃ e, cacheLookup k c = some e ∧ e.confidence = "high"

theorem highAt_cacheInsert (k k' : String) (v : CacheEntry) (c : MerchantCache)
    (hv : v.confidence = "high") (h : HighAt c k) :
    HighAt (cacheInsert k' v c) k := by
  by_cases hk : k = k'
  · subst hk
    exact ⟨v, cacheLookup_cacheInsert_self k v c, hv⟩
  · obtain ⟨e, he, hc⟩ := h
    exact ⟨e, by rw [cacheLookup_cacheInsert_other k k' v c hk]; exact he, hc⟩

theorem reconcile_all_cache_preserves (ts : List Transaction) :
    ∀ (cache : MerchantCache) (k : String), HighAt cache k →
      HighAt (reconcile_all ts cache).2.1 k := by
  induction ts with
  | nil => intro cache k h; exact h
  | cons t ts ih =>
      intro cache k h
      by_cases hs : shouldTransition t
      · simp only [reconcile_all, hs, if_true]
        exact ih _ k (highAt_cacheInsert k (merchantKey t) (learnFrom t) cache rfl h)
      · simp only [reconcile_all, hs, Bool.false_eq_true, if_false]
        exact ih cache k h

theorem reconcile_all_length (ts : List Transaction) (cache : MerchantCache) :
    (reconcile_all ts cache).1.length = ts.length := by
  induction ts generalizing cache with
  | nil => rfl
  | cons t ts ih =>
      by_cases hs : shouldTransition t
      · simp only [reconcile_all, hs, if_true, List.length_cons]
        rw [ih]
      · simp only [reconcile_all, hs, Bool.false_eq_true, if_false, List.length_cons]
        rw [ih]

theorem reconcile_all_getElem (ts : List Transaction) :
    ∀ (cache : MerchantCache) (i : Nat) (t : Transaction), ts[i]? = some t →
      (reconcile_all ts cache).1[i]? =
        some (if shouldTransition t then acceptSuggestion t else t) := by
  induction ts with
  | nil => intro cache i t h; simp at h
  | cons u ts ih =>
      intro cache i t h
      cases i with
      | zero =>
          simp only [List.getElem?_cons_zero, Option.some.injEq] at h
          subst h
          by_cases hs : shouldTransition u
          · simp [reconcile_all, hs]
          · simp [reconcile_all, hs]
      | succ n =>
          simp only [List.getElem?_cons_succ] at h
          by_cases hs : shouldTransition u
          · simp only [reconcile_all, hs, if_true, List.getElem?_cons_succ]
            exact ih _ n t h
          · simp only [reconcile_all, hs, Bool.false_eq_true, if_false,
              List.getElem?_cons_succ]
            exact ih _ n t h

theorem reconcile_all_count (ts : List Transaction) :
    ∀ cache : MerchantCache,
      (reconcile_all ts cache).2.2 = ts.countP shouldTransition := by
  induction ts with
  | nil => intro cache; rfl
  | cons t ts ih =>
      intro cache
      by_cases hs : shouldTransition t
      · simp only [reconcile_all, hs, if_true, List.countP_cons, if_true]
        rw [ih]
      · simp only [reconcile_all, hs, Bool.false_eq_true, if_false, List.countP_cons]
        rw [ih]
        simp [hs]

theorem reconcile_all_learns (ts : List Transaction) :
    ∀ (cache : MerchantCache) (t : Transaction), t ∈ ts →
      shouldTransition t = true →
      HighAt (reconcile_all ts cache).2.1 (merchantKey t) := by
  induction ts with
  | nil => intro _ t h; simp at h
  | cons u ts ih =>
      intro cache t ht hs
      rcases List.mem_cons.mp ht with h | h
      · subst h
        simp only [reconcile_all, hs, if_true]
        exact reconcile_all_cache_preserves ts _ (merchantKey t)
          ⟨learnFrom t, cacheLookup_cacheInsert_self _ _ cache, rfl⟩
      · by_cases hu : shouldTransition u
        · simp only [reconcile_all, hu, if_true]
          exact ih _ t h hs
        · simp only [reconcile_all, hu, Bool.false_eq_true, if_false]
          exact ih cache t h hs

/-! ## Claim C9 -/

/-- A transaction carrying an empty-string AI suggestion: non-null, but
falsy for Python's truthiness test. -/
def emptySuggTx : Transaction :=
  { id := "e1", date := "2024-01-03", amount := -2, description := "SHOP",
    category_code := none, reconciled := false, ai_suggested_code := some "" }

/-- C9 (counterexample): `emptySuggTx` is unreconciled and carries a
non-null `ai_suggested_code`, yet `reconcile_all` leaves it untouched,
learns nothing, and counts zero transitions — the loop guard is Python
truthiness (`t.get('ai_suggested_code')`), which rejects the empty
string, not just null. -/
theorem C9_counterexample :
    emptySuggTx.reconciled = false ∧ emptySuggTx.ai_suggested_code ≠ none ∧
    reconcile_all [emptySuggTx] [] = ([emptySuggTx], [], 0) := by
  refine ⟨rfl, by simp [emptySuggTx], ?_⟩
  decide

/-- C9 (amended): `reconcile_all` transitions exactly the transactions
that are unreconciled and carry a non-null, *non-empty*
`ai_suggested_code` (`shouldTransition`): each such transaction gets its
suggestion as `category_code` and `reconciled = true`
(`acceptSuggestion`), every other transaction is returned exactly
unchanged, the returned count is exactly the number of transitioned
transactions, and for every transitioned transaction the final merchant
cache holds an entry at its merchant key with confidence `'high'`. -/
theorem C9_reconcile_all (ts : List Transaction) (cache : MerchantCache) :
    (reconcile_all ts cache).1.length = ts.length ∧
    (∀ (i : Nat) (t : Transaction), ts[i]? = some t →
      (reconcile_all ts cache).1[i]? =
        some (if shouldTransition t then acceptSuggestion t else t)) ∧
    (reconcile_all ts cache).2.2 = ts.countP shouldTransition ∧
    (∀ t ∈ ts, shouldTransition t = true →
      ∃ e, cacheLookup (merchantKey t) (reconcile_all ts cache).2.1 = some e ∧
        e.confidence = "high") :=
  ⟨reconcile_all_length ts cache,
   fun i t h => reconcile_all_getElem ts cache i t h,
   reconcile_all_count ts cache,
   fun t ht hs => reconcile_all_learns ts cache t ht hs⟩

/-- A transaction with a real (non-empty) AI suggestion. -/
def suggTx : Transaction :=
  { id := "s1", date := "2024-01-04", amount := -9, description := "ACME",
    category_code := none, reconciled := false, ai_suggested_code := some "300" }

/-- C9 witness: the amended statement applied to a concrete
one-transaction store with a real suggestion. -/
theorem C9_reconcile_all_witness :
    (reconcile_all [suggTx] []).1[0]? =
      some (if shouldTransition suggTx then acceptSuggestion suggTx else suggTx) ∧
    (∃ e, cacheLookup (merchantKey suggTx) (reconcile_all [suggTx] []).2.1 = some e ∧
      e.confidence = "high") :=
  ⟨(C9_reconcile_all [suggTx] []).2.1 0 suggTx (by decide),
   (C9_reconcile_all [suggTx] []).2.2.2 suggTx (by decide) (by decide)⟩

/-! ## Claim C2 -/

/-- A reconciled transaction for the update-by-id counterexample. -/
def reconTx : Transaction :=
  { id := "t1", date := "2024-01-01", amount := -1, description := "X",
    category_code := some "100", reconciled := true }

/-- C2 (counterexample): the update-by-id operation writes whatever
`reconciled` value the request carries, so a request with
`reconciled = false` moves a reconciled transaction back to
unreconciled. -/
theorem C2_counterexample :
    reconTx.reconciled = true ∧
    (api_transaction "t1" { reconciled := some false } [reconTx] []).1 =
      [{ reconTx with reconciled := false }] := by
  refine ⟨rfl, ?_⟩
  decide

theorem reconcileGo_mono (tid code : String) (ts : List Transaction) :
    ∀ (cache : MerchantCache) (i : Nat) (t : Transaction), ts[i]? = some t →
      t.reconciled = true →
      ∃ u, (reconcileGo tid code ts cache).1[i]? = some u ∧ u.reconciled = true := by
  induction ts with
  | nil => intro cache i t h; simp at h
  | cons v ts ih =>
      intro cache i t h hrec
      by_cases hv : v.id = tid
      · simp only [reconcileGo]
        rw [if_pos hv]
        cases i with
        | zero =>
            simp only [List.getElem?_cons_zero, Option.some.injEq] at h
            subst h
            exact ⟨{ v with category_code := some code, reconciled := true },
              by simp, rfl⟩
        | succ n =>
            simp only [List.getElem?_cons_succ] at h
            exact ⟨t, by simpa using h, hrec⟩
      · simp only [reconcileGo, hv, if_false]
        cases i with
        | zero =>
            simp only [List.getElem?_cons_zero, Option.some.injEq] at h
            subst h
            exact ⟨v, by simp, hrec⟩
        | succ n =>
            simp only [List.getElem?_cons_succ] at h
            obtain ⟨u, hu, hur⟩ := ih cache n t h hrec
            refine ⟨u, ?_, hur⟩
            simpa using hu

theorem api_transaction_mono (tid : String) (p : UpdatePayload)
    (hp : p.reconciled ≠ some false) (ts : List Transaction) :
    ∀ (cache : MerchantCache) (i : Nat) (t : Transaction), ts[i]? = some t →
      t.reconciled = true →
      ∃ u, (api_transaction tid p ts cache).1[i]? = some u ∧
        u.reconciled = true := by
  induction ts with
  | nil => intro cache i t h; simp at h
  | cons v ts ih =>
      intro cache i t h hrec
      by_cases hv : v.id = tid
      · simp only [api_transaction]
        rw [if_pos hv]
        cases i with
        | zero =>
            simp only [List.getElem?_cons_zero, Option.some.injEq] at h
            subst h
            refine ⟨applyUpdate p v, by simp, ?_⟩
            simp only [applyUpdate]
            cases hcc : p.category_code with
            | none =>
                cases hr : p.reconciled with
                | none =>
                    cases hn : p.note <;> simp [hrec]
                | some b =>
                    cases b with
                    | false => exact absurd hr hp
                    | true => cases hn : p.note <;> simp [hr]
            | some cc =>
                cases hr : p.reconciled with
                | none =>
                    cases hn : p.note <;> simp [hrec]
                | some b =>
                    cases b with
                    | false => exact absurd hr hp
                    | true => cases hn : p.note <;> simp [hr]
        | succ n =>
            simp only [List.getElem?_cons_succ] at h
            exact ⟨t, by simpa using h, hrec⟩
      · simp only [api_transaction, hv, if_false]
        cases i with
        | zero =>
            simp only [List.getElem?_cons_zero, Option.some.injEq] at h
            subst h
            exact ⟨v, by simp, hrec⟩
        | succ n =>
            simp only [List.getElem?_cons_succ] at h
            obtain ⟨u, hu, hur⟩ := ih cache n t h hrec
            exact ⟨u, by simpa using hu, hur⟩

theorem categorize_getElem_reconciled (cache : MerchantCache)
    (o : ClassifierOutcome) (ts : List Transaction) (i : Nat) (t : Transaction)
    (h : ts[i]? = some t) :
    ∃ u, (categorize_transactions_batch cache o ts)[i]? = some u ∧
      u.reconciled = t.reconciled := by
  have hmap := categorize_map_reconciled cache o ts
  have h1 := congrArg (fun l => l[i]?) hmap
  simp only [List.getElem?_map] at h1
  rw [h] at h1
  cases hu : (categorize_transactions_batch cache o ts)[i]? with
  | none => rw [hu] at h1; simp at h1
  | some u =>
      rw [hu] at h1
      simp at h1
      exact ⟨u, rfl, h1⟩

theorem uploadStore_mem (rt : PyRuntime) (cache : MerchantCache)
    (o : ClassifierOutcome) (store : List Transaction)
    (rows : List (List String)) (t : Transaction) (ht : t ∈ store) :
    t ∈ uploadStore rt cache o store rows := by
  unfold uploadStore upload_csv
  cases hb : buildNew rt (store.map (fun t => t.id)) rows with
  | none => exact ht
  | some l =>
      by_cases he : l.isEmpty
      · simp only [he, if_true]
        exact ht
      · simp only [he, if_false]
        rw [show (sortByDateDesc
            (store ++ categorize_transactions_batch cache o l)) =
            sortOrd (fun a b => decide (b.date ≤ a.date))
              (store ++ categorize_transactions_batch cache o l) from rfl]
        exact (mem_sortOrd _ _ t).mpr (List.mem_append_left _ ht)

/-- C2 (amended): a true `reconciled` flag survives every state-mutating
operation except an update-by-id request that explicitly carries
`reconciled = false`: single reconcile, reconcile-all (which leaves
already-reconciled transactions exactly unchanged), batch categorization
(which never touches the flag), CSV import (which preserves every stored
record), and update-by-id whenever its payload does not carry
`reconciled = false`.  Only an update-by-id payload with
`reconciled = false` can clear the flag. -/
theorem C2_reconciled_monotone :
    (∀ (tid code : String) (ts : List Transaction) (cache : MerchantCache)
       (i : Nat) (t : Transaction), ts[i]? = some t → t.reconciled = true →
       ∃ u, (reconcile_transaction tid code ts cache).1[i]? = some u ∧
         u.reconciled = true) ∧
    (∀ (ts : List Transaction) (cache : MerchantCache) (i : Nat)
       (t : Transaction), ts[i]? = some t → t.reconciled = true →
       (reconcile_all ts cache).1[i]? = some t) ∧
    (∀ (cache : MerchantCache) (o : ClassifierOutcome) (ts : List Transaction)
       (i : Nat) (t : Transaction), ts[i]? = some t →
       ∃ u, (categorize_transactions_batch cache o ts)[i]? = some u ∧
         u.reconciled = t.reconciled) ∧
    (∀ (rt : PyRuntime) (cache : MerchantCache) (o : ClassifierOutcome)
       (store : List Transaction) (rows : List (List String)) (t : Transaction),
       t ∈ store → t ∈ uploadStore rt cache o store rows) ∧
    (∀ (tid : String) (p : UpdatePayload) (ts : List Transaction)
       (cache : MerchantCache) (i : Nat) (t : Transaction),
       p.reconciled ≠ some false → ts[i]? = some t → t.reconciled = true →
       ∃ u, (api_transaction tid p ts cache).1[i]? = some u ∧
         u.reconciled = true) := by
  refine ⟨?_, ?_, ?_, ?_, ?_⟩
  · intro tid code ts cache i t h hrec
    unfold reconcile_transaction
    by_cases hid : tid = "" || code = ""
    · simp only [hid, if_true]
      exact ⟨t, h, hrec⟩
    · simp only [hid, Bool.false_eq_true, if_false]
      exact reconcileGo_mono tid code ts cache i t h hrec
  · intro ts cache i t h hrec
    have := reconcile_all_getElem ts cache i t h
    rw [this]
    have hs : shouldTransition t = false := by
      simp [shouldTransition, hrec]
    simp [hs]
  · intro cache o ts i t h
    exact categorize_getElem_reconciled cache o ts i t h
  · intro rt cache o store rows t ht
    exact uploadStore_mem rt cache o store rows t ht
  · intro tid p ts cache i t hp h hrec
    exact api_transaction_mono tid p hp ts cache i t h hrec

/-- C2 witness: each clause of the amended statement applied at a
concrete reconciled one-transaction store. -/
theorem C2_reconciled_monotone_witness :
    (∃ u, (reconcile_transaction "zz" "200" [reconTx] []).1[0]? = some u ∧
      u.reconciled = true) ∧
    (reconcile_all [reconTx] []).1[0]? = some reconTx ∧
    (∃ u, (categorize_transactions_batch [] ClassifierOutcome.apiError
        [reconTx])[0]? = some u ∧ u.reconciled = reconTx.reconciled) ∧
    reconTx ∈ uploadStore
      { strptime_dmy := fun _ => none, parse_float := fun _ => none,
        pyhash := fun _ => 0 } [] ClassifierOutcome.apiError [reconTx] [] ∧
    (∃ u, (api_transaction "t1" { reconciled := some true } [reconTx] []).1[0]? =
      some u ∧ u.reconciled = true) :=
  ⟨C2_reconciled_monotone.1 "zz" "200" [reconTx] [] 0 reconTx (by decide) rfl,
   C2_reconciled_monotone.2.1 [reconTx] [] 0 reconTx (by decide) rfl,
   C2_reconciled_monotone.2.2.1 [] ClassifierOutcome.apiError [reconTx] 0 reconTx
     (by decide),
   C2_reconciled_monotone.2.2.2.1 _ [] ClassifierOutcome.apiError [reconTx] []
     reconTx (by simp),
   C2_reconciled_monotone.2.2.2.2 "t1" { reconciled := some true } [reconTx] [] 0
     reconTx (by simp) (by decide) rfl⟩

/-! ## Claim C8 -/

/-- C8: the merchant normalizer is a total pure function built from the
four documented steps (trim, truncate at the first run of two-plus
whitespace, strip a trailing numeric token, strip a trailing 2-3 letter
uppercase token — see `extract_merchant_name` and its component
functions), whose lower-cased output is the cache key; on the spec's
example it yields the key `"woolworths"`, and on empty or all-whitespace
input it returns the empty string rather than failing. -/
theorem C8_normalizer :
    cacheKeyOf "WOOLWORTHS 1234   MELBOURNE VIC" = "woolworths" ∧
    extract_merchant_name "WOOLWORTHS 1234   MELBOURNE VIC" = "WOOLWORTHS" ∧
    extract_merchant_name "" = "" ∧ extract_merchant_name "   " = "" := by
  refine ⟨?_, ?_, ?_, ?_⟩ <;> decide

/-! ## Claim C4 -/

/-- A reconciled expense whose `category_code` is the stored JSON null,
exactly as `upload_csv` creates it (the key is present, its value null). -/
def nullCatTx : Transaction :=
  { id := "n1", date := "2024-01-05", amount := -5, description := "MYSTERY",
    category_code := none, reconciled := true }

/-- The default "other" category, present in the catalog. -/
def otherCategory : Category :=
  { code := "500", name := "Other", type := "variable", category_type := "Expense" }

/-- C4 (divergence evidence): `t.get('category_code', '500')` only falls
back to `'500'` when the key is absent, and stored transactions always
carry the key (possibly null), so a reconciled transaction with a null
category code is grouped under the null key and rendered with the
`Unknown` placeholder — not in the `'500'` "other" bucket, even though
`'500'` exists in the catalog. -/
theorem C4_null_code_unknown_bucket :
    api_analysis [nullCatTx] [otherCategory] "expenses" =
      [{ code := none, name := "Unknown", type := "variable", total := 5,
         transactions := [nullCatTx] }] := by
  have hfil : List.filter (eligible "expenses") [nullCatTx] = [nullCatTx] := by
    norm_num [eligible, nullCatTx, List.filter]
  have habs : |(-5 : Rat)| = 5 := by norm_num
  have hb : bucketsOf [nullCatTx] =
      [{ key := none, total := 5, transactions := [nullCatTx] }] := by
    simp [bucketsOf, addToBuckets, nullCatTx, habs]
  have hr : round2 5 = 5 := by unfold round2 halfEvenInt; norm_num
  simp [api_analysis, hfil, hb, sortOrd, insertOrd, bucketToGroup, lookupCategory,
    hr, nullCatTx, otherCategory, habs]

/-! ## Aggregation invariants (for C6) -/

/-- The running total of a bucket is the sum of the absolute amounts of
its member transactions. -/
def BucketInv (b : Bucket) : Prop :=
  b.total = (b.transactions.map (fun t => |t.amount|)).sum

theorem addToBuckets_inv (P : Transaction → Prop) (t : Transaction) (hP : P t)
    (bs : List Bucket)
    (hbs : ∀ b ∈ bs, BucketInv b ∧ ∀ u ∈ b.transactions, P u) :
    ∀ b ∈ addToBuckets t bs, BucketInv b ∧ ∀ u ∈ b.transactions, P u := by
  induction bs with
  | nil =>
      intro b hb
      simp only [addToBuckets, List.mem_singleton] at hb
      subst hb
      refine ⟨by simp [BucketInv], ?_⟩
      intro u hu
      simp only [List.mem_singleton] at hu
      subst hu
      exact hP
  | cons c cs ih =>
      intro b hb
      by_cases hc : c.key = t.category_code
      · simp only [addToBuckets] at hb
        rw [if_pos hc] at hb
        rcases List.mem_cons.mp hb with h | h
        · subst h
          obtain ⟨hcinv, hcmem⟩ := hbs c (List.mem_cons_self c cs)
          constructor
          · simp only [BucketInv] at hcinv ⊢
            simp [hcinv, List.map_append, List.sum_append]
          · intro u hu
            simp only [List.mem_append, List.mem_singleton] at hu
            rcases hu with h | h
            · exact hcmem u h
            · subst h; exact hP
        · exact hbs b (List.mem_cons_of_mem c h)
      · simp only [addToBuckets] at hb
        rw [if_neg hc] at hb
        rcases List.mem_cons.mp hb with h | h
        · subst h
          exact hbs b (List.mem_cons_self b cs)
        · exact ih (fun x hx => hbs x (List.mem_cons_of_mem c hx)) b h

theorem foldl_addToBuckets_inv (P : Transaction → Prop) (l : List Transaction) :
    ∀ acc : List Bucket, (∀ t ∈ l, P t) →
      (∀ b ∈ acc, BucketInv b ∧ ∀ u ∈ b.transactions, P u) →
      ∀ b ∈ l.foldl (fun bs t => addToBuckets t bs) acc,
        BucketInv b ∧ ∀ u ∈ b.transactions, P u := by
  induction l with
  | nil => intro acc _ hacc; exact hacc
  | cons t l ih =>
      intro acc hl hacc
      simp only [List.foldl_cons]
      exact ih _ (fun u hu => hl u (List.mem_cons_of_mem t hu))
        (addToBuckets_inv P t (hl t (List.mem_cons_self t l)) acc hacc)

theorem bucketsOf_inv (P : Transaction → Prop) (l : List Transaction)
    (hl : ∀ t ∈ l, P t) :
    ∀ b ∈ bucketsOf l, BucketInv b ∧ ∀ u ∈ b.transactions, P u :=
  foldl_addToBuckets_inv P l [] hl (by intro b hb; simp at hb)

theorem bucketToGroup_transactions (cats : List Category) (b : Bucket) :
    (bucketToGroup cats b).transactions = b.transactions := by
  unfold bucketToGroup
  cases lookupCategory cats b.key <;> rfl

theorem bucketToGroup_total (cats : List Category) (b : Bucket) :
    (bucketToGroup cats b).total = round2 b.total := by
  unfold bucketToGroup
  cases lookupCategory cats b.key <;> rfl

theorem eligible_spec (k : String) (t : Transaction) (h : eligible k t = true) :
    t.reconciled = true ∧ (k = "expenses" → t.amount < 0) ∧
      (k = "income" → 0 < t.amount) := by
  unfold eligible at h
  by_cases hk : k = "expenses"
  · rw [if_pos hk] at h
    simp only [Bool.and_eq_true, decide_eq_true_eq] at h
    refine ⟨h.1, fun _ => h.2, fun hki => ?_⟩
    rw [hk] at hki
    exact absurd hki (by decide)
  · rw [if_neg hk] at h
    by_cases hki : k = "income"
    · rw [if_pos hki] at h
      simp only [Bool.and_eq_true, decide_eq_true_eq] at h
      exact ⟨h.1, fun he => absurd he hk, fun _ => h.2⟩
    · rw [if_neg hki] at h
      exact ⟨h, fun he => absurd he hk, fun hi => absurd hi hki⟩

theorem halfEvenInt_lb (c : Rat) : ⌊c⌋ ≤ halfEvenInt c := by
  unfold halfEvenInt
  split_ifs <;> omega

theorem halfEvenInt_ub (c : Rat) : halfEvenInt c ≤ ⌊c⌋ + 1 := by
  unfold halfEvenInt
  split_ifs <;> omega

theorem halfEvenInt_mono {a b : Rat} (hab : a ≤ b) :
    halfEvenInt a ≤ halfEvenInt b := by
  rcases lt_or_eq_of_le (Int.floor_le_floor hab) with hf | hf
  · calc halfEvenInt a ≤ ⌊a⌋ + 1 := halfEvenInt_ub a
      _ ≤ ⌊b⌋ := hf
      _ ≤ halfEvenInt b := halfEvenInt_lb b
  · unfold halfEvenInt
    rw [← hf]
    split_ifs <;> first | omega | linarith

theorem round2_mono {a b : Rat} (hab : a ≤ b) : round2 a ≤ round2 b := by
  unfold round2
  have h : halfEvenInt (a * 100) ≤ halfEvenInt (b * 100) :=
    halfEvenInt_mono (by linarith)
  have h2 : ((halfEvenInt (a * 100) : Int) : Rat) ≤
      ((halfEvenInt (b * 100) : Int) : Rat) := by exact_mod_cast h
  linarith

/-! ## Claim C6 -/

/-- Reconciled expense of 12.50 in category A. -/
def aggTxA1 : Transaction :=
  { id := "a1", date := "2024-02-01", amount := -25/2, description := "A ONE",
    category_code := some "A", reconciled := true }

/-- Reconciled expense of 7.50 in category A. -/
def aggTxA2 : Transaction :=
  { id := "a2", date := "2024-02-02", amount := -15/2, description := "A TWO",
    category_code := some "A", reconciled := true }

/-- Reconciled expense of 10.00 in category B. -/
def aggTxB : Transaction :=
  { id := "b1", date := "2024-02-03", amount := -10, description := "B ONE",
    category_code := some "B", reconciled := true }

/-- Unreconciled expense of 5.00 in category A. -/
def aggTxU : Transaction :=
  { id := "u1", date := "2024-02-04", amount := -5, description := "A THREE",
    category_code := some "A", reconciled := false }

/-- The category catalog for the aggregation scenario. -/
def aggCats : List Category :=
  [{ code := "A", name := "Cat A", type := "variable", category_type := "Expense" },
   { code := "B", name := "Cat B", type := "variable", category_type := "Expense" }]

/-- C6: on the spec's scenario, aggregation of expenses returns exactly
the two groups A (total 20.00, members the two reconciled A-expenses) and
B (total 10.00), in that order, with the unreconciled transaction in
neither total nor list; and in general every transaction appearing in any
group is reconciled and matches the kind filter (expenses: amount < 0,
income: amount > 0), every group's total is the 2-decimal rounding of the
sum of the absolute amounts of its member transactions, and the output is
ordered by total descending. -/
theorem C6_aggregation :
    (api_analysis [aggTxA1, aggTxA2, aggTxB, aggTxU] aggCats "expenses" =
      [{ code := some "A", name := "Cat A", type := "variable", total := 20,
         transactions := [aggTxA1, aggTxA2] },
       { code := some "B", name := "Cat B", type := "variable", total := 10,
         transactions := [aggTxB] }]) ∧
    (∀ (ts : List Transaction) (cats : List Category) (k : String)
       (g : AnalysisGroup) (t : Transaction), g ∈ api_analysis ts cats k →
       t ∈ g.transactions →
       t.reconciled = true ∧ (k = "expenses" → t.amount < 0) ∧
         (k = "income" → 0 < t.amount)) ∧
    (∀ (ts : List Transaction) (cats : List Category) (k : String)
       (g : AnalysisGroup), g ∈ api_analysis ts cats k →
       g.total = round2 ((g.transactions.map (fun t => |t.amount|)).sum)) ∧
    (∀ (ts : List Transaction) (cats : List Category) (k : String),
       List.Chain' (fun g1 g2 => g2.total ≤ g1.total)
         (api_analysis ts cats k)) := by
  refine ⟨?_, ?_, ?_, ?_⟩
  · have hfil : List.filter (eligible "expenses") [aggTxA1, aggTxA2, aggTxB, aggTxU] =
        [aggTxA1, aggTxA2, aggTxB] := by
      norm_num [eligible, aggTxA1, aggTxA2, aggTxB, aggTxU, List.filter]
    have h1 : |(-25/2 : Rat)| = 25/2 := by norm_num
    have h2 : |(-15/2 : Rat)| = 15/2 := by norm_num
    have h3 : |(-10 : Rat)| = 10 := by norm_num
    have hsum : (25/2 : Rat) + 15/2 = 20 := by norm_num
    have hb : bucketsOf [aggTxA1, aggTxA2, aggTxB] =
        [{ key := some "A", total := 20, transactions := [aggTxA1, aggTxA2] },
         { key := some "B", total := 10, transactions := [aggTxB] }] := by
      simp [bucketsOf, addToBuckets, aggTxA1, aggTxA2, aggTxB, h1, h2, h3, hsum]
    have hr20 : round2 20 = 20 := by unfold round2 halfEvenInt; norm_num
    have hr10 : round2 10 = 10 := by unfold round2 halfEvenInt; norm_num
    have hle : ((10:Rat) ≤ 20) := by norm_num
    simp [api_analysis, hfil, hb, sortOrd, insertOrd, bucketToGroup, lookupCategory,
      aggCats, hr20, hr10, hle]
  · intro ts cats k g t hg ht
    obtain ⟨b, hb, hgb⟩ := List.mem_map.mp hg
    rw [mem_sortOrd] at hb
    have hinv := bucketsOf_inv (fun u => eligible k u = true)
      (ts.filter (eligible k)) (fun u hu => (List.mem_filter.mp hu).2) b hb
    subst hgb
    rw [bucketToGroup_transactions] at ht
    exact eligible_spec k t (hinv.2 t ht)
  · intro ts cats k g hg
    obtain ⟨b, hb, hgb⟩ := List.mem_map.mp hg
    rw [mem_sortOrd] at hb
    have hinv := bucketsOf_inv (fun u => eligible k u = true)
      (ts.filter (eligible k)) (fun u hu => (List.mem_filter.mp hu).2) b hb
    subst hgb
    rw [bucketToGroup_transactions, bucketToGroup_total, hinv.1]
  · intro ts cats k
    unfold api_analysis
    rw [List.chain'_map]
    have hchain := chain_sortOrd (fun a b : Bucket => decide (b.total ≤ a.total))
      (fun a b => by
        rcases le_total b.total a.total with h | h
        · exact Or.inl (by simpa using h)
        · exact Or.inr (by simpa using h))
      (bucketsOf (ts.filter (eligible k)))
    refine List.Chain'.imp ?_ hchain
    intro b1 b2 h
    rw [bucketToGroup_total, bucketToGroup_total]
    exact round2_mono (by simpa using h)

/-- C6 witness: the general eligibility clause applied to the first
member of the A group in the concrete scenario. -/
theorem C6_aggregation_witness :
    aggTxA1.reconciled = true ∧ ("expenses" = "expenses" → aggTxA1.amount < 0) ∧
      ("expenses" = "income" → 0 < aggTxA1.amount) :=
  C6_aggregation.2.1 [aggTxA1, aggTxA2, aggTxB, aggTxU] aggCats "expenses"
    { code := some "A", name := "Cat A", type := "variable", total := 20,
      transactions := [aggTxA1, aggTxA2] } aggTxA1
    (by rw [C6_aggregation.1]; simp) (by simp)


/-! ## Lemmas about the CSV import (for C5 and C10) -/

theorem buildNew_cons_fail (rt : PyRuntime) (ids : List String)
    (row : List String) (rows : List (List String))
    (h : parseRow rt row = RowResult.fail) :
    buildNew rt ids (row :: rows) = none := by
  simp [buildNew, h]

theorem buildNew_cons_skip (rt : PyRuntime) (ids : List String)
    (row : List String) (rows : List (List String))
    (h : parseRow rt row = RowResult.skip) :
    buildNew rt ids (row :: rows) = buildNew rt ids rows := by
  simp [buildNew, h]

theorem buildNew_cons_tx_old (rt : PyRuntime) (ids : List String)
    (row : List String) (rows : List (List String)) (t : Transaction)
    (h : parseRow rt row = RowResult.tx t) (hc : t.id ∈ ids) :
    buildNew rt ids (row :: rows) = buildNew rt ids rows := by
  simp [buildNew, h, hc]

theorem buildNew_cons_tx_new (rt : PyRuntime) (ids : List String)
    (row : List String) (rows : List (List String)) (t : Transaction)
    (h : parseRow rt row = RowResult.tx t) (hc : t.id ∉ ids) :
    buildNew rt ids (row :: rows) =
      (buildNew rt ids rows).map (fun l => t :: l) := by
  simp [buildNew, h, hc]

theorem buildNew_eq_none_iff (rt : PyRuntime) (ids : List String)
    (rows : List (List String)) :
    buildNew rt ids rows = none ↔
      ∃ row ∈ rows, parseRow rt row = RowResult.fail := by
  induction rows with
  | nil => simp [buildNew]
  | cons row rows ih =>
      cases hp : parseRow rt row with
      | fail => simp [buildNew_cons_fail rt ids row rows hp, hp]
      | skip => simp [buildNew_cons_skip rt ids row rows hp, hp, ih]
      | tx t =>
          by_cases hc : t.id ∈ ids
          · rw [buildNew_cons_tx_old rt ids row rows t hp hc]
            simp [hp, ih]
          · rw [buildNew_cons_tx_new rt ids row rows t hp hc]
            simp [hp, ih, Option.map_eq_none']

theorem buildNew_tx_mem (rt : PyRuntime) (ids : List String) :
    ∀ (rows : List (List String)) (l : List Transaction),
      buildNew rt ids rows = some l →
      ∀ row ∈ rows, ∀ t : Transaction, parseRow rt row = RowResult.tx t →
        t.id ∈ ids ∨ t.id ∈ l.map (fun x => x.id) := by
  intro rows
  induction rows with
  | nil => intro l _ row hrow; simp at hrow
  | cons row0 rows ih =>
      intro l hl r hr t hp
      rcases List.mem_cons.mp hr with h1 | h1
      · subst h1
        by_cases hc : t.id ∈ ids
        · exact Or.inl hc
        · rw [buildNew_cons_tx_new rt ids r rows t hp hc] at hl
          cases hbn : buildNew rt ids rows with
          | none =>
              rw [hbn] at hl
              simp only [Option.map_none'] at hl
              exact Option.noConfusion hl
          | some l' =>
              rw [hbn] at hl
              simp only [Option.map_some', Option.some.injEq] at hl
              subst hl
              exact Or.inr (by simp)
      · cases hp0 : parseRow rt row0 with
        | fail => rw [buildNew_cons_fail rt ids row0 rows hp0] at hl; simp at hl
        | skip =>
            rw [buildNew_cons_skip rt ids row0 rows hp0] at hl
            exact ih l hl r h1 t hp
        | tx t0 =>
            by_cases hc : t0.id ∈ ids
            · rw [buildNew_cons_tx_old rt ids row0 rows t0 hp0 hc] at hl
              exact ih l hl r h1 t hp
            · rw [buildNew_cons_tx_new rt ids row0 rows t0 hp0 hc] at hl
              cases hbn : buildNew rt ids rows with
              | none =>
                  rw [hbn] at hl
                  simp only [Option.map_none'] at hl
                  exact Option.noConfusion hl
              | some l' =>
                  rw [hbn] at hl
                  simp only [Option.map_some', Option.some.injEq] at hl
                  subst hl
                  rcases ih l' hbn r h1 t hp with h | h
                  · exact Or.inl h
                  · refine Or.inr ?_
                    simp only [List.map_cons, List.mem_cons]
                    exact Or.inr h

theorem buildNew_all_known (rt : PyRuntime) (ids : List String)
    (rows : List (List String))
    (hnf : ∀ row ∈ rows, parseRow rt row ≠ RowResult.fail)
    (hin : ∀ row ∈ rows, ∀ t : Transaction, parseRow rt row = RowResult.tx t →
      t.id ∈ ids) :
    buildNew rt ids rows = some [] := by
  induction rows with
  | nil => rfl
  | cons row rows ih =>
      have htail := ih (fun r hr => hnf r (List.mem_cons_of_mem row hr))
        (fun r hr t hp => hin r (List.mem_cons_of_mem row hr) t hp)
      cases hp : parseRow rt row with
      | fail => exact absurd hp (hnf row (List.mem_cons_self row rows))
      | skip => rw [buildNew_cons_skip rt ids row rows hp]; exact htail
      | tx t =>
          rw [buildNew_cons_tx_old rt ids row rows t hp
            (hin row (List.mem_cons_self row rows) t hp)]
          exact htail

theorem categorize_length (cache : MerchantCache) (o : ClassifierOutcome)
    (ts : List Transaction) :
    (categorize_transactions_batch cache o ts).length = ts.length := by
  have h := congrArg List.length (categorize_map_id cache o ts)
  simpa using h

theorem sortByDateDesc_perm (ts : List Transaction) :
    List.Perm (sortByDateDesc ts) ts :=
  sortOrd_perm _ ts

theorem upload_csv_none (rt : PyRuntime) (cache : MerchantCache)
    (o : ClassifierOutcome) (store : List Transaction)
    (rows : List (List String))
    (h : buildNew rt (store.map (fun x => x.id)) rows = none) :
    upload_csv rt cache o store rows = none := by
  unfold upload_csv
  rw [h]

theorem upload_csv_emptyNew (rt : PyRuntime) (cache : MerchantCache)
    (o : ClassifierOutcome) (store : List Transaction)
    (rows : List (List String))
    (h : buildNew rt (store.map (fun x => x.id)) rows = some []) :
    upload_csv rt cache o store rows = some (store, 0) := by
  unfold upload_csv
  rw [h]
  simp

theorem upload_csv_newList (rt : PyRuntime) (cache : MerchantCache)
    (o : ClassifierOutcome) (store : List Transaction)
    (rows : List (List String)) (l : List Transaction)
    (h : buildNew rt (store.map (fun x => x.id)) rows = some l)
    (hne : l.isEmpty = false) :
    upload_csv rt cache o store rows =
      some (sortByDateDesc (store ++ categorize_transactions_batch cache o l),
        l.length) := by
  unfold upload_csv
  rw [h]
  simp [hne]

theorem uploadStore_of_none (rt : PyRuntime) (cache : MerchantCache)
    (o : ClassifierOutcome) (store : List Transaction)
    (rows : List (List String))
    (h : buildNew rt (store.map (fun x => x.id)) rows = none) :
    uploadStore rt cache o store rows = store := by
  unfold uploadStore
  rw [upload_csv_none rt cache o store rows h]

theorem uploadStore_of_emptyNew (rt : PyRuntime) (cache : MerchantCache)
    (o : ClassifierOutcome) (store : List Transaction)
    (rows : List (List String))
    (h : buildNew rt (store.map (fun x => x.id)) rows = some []) :
    uploadStore rt cache o store rows = store := by
  unfold uploadStore
  rw [upload_csv_emptyNew rt cache o store rows h]

theorem uploadStore_of_newList (rt : PyRuntime) (cache : MerchantCache)
    (o : ClassifierOutcome) (store : List Transaction)
    (rows : List (List String)) (l : List Transaction)
    (h : buildNew rt (store.map (fun x => x.id)) rows = some l)
    (hne : l.isEmpty = false) :
    uploadStore rt cache o store rows =
      sortByDateDesc (store ++ categorize_transactions_batch cache o l) := by
  unfold uploadStore
  rw [upload_csv_newList rt cache o store rows l h hne]

theorem mem_id_uploadStore (rt : PyRuntime) (cache : MerchantCache)
    (o : ClassifierOutcome) (store : List Transaction)
    (rows : List (List String)) (l : List Transaction)
    (h : buildNew rt (store.map (fun x => x.id)) rows = some l) (s : String)
    (hs : s ∈ store.map (fun x => x.id) ∨ s ∈ l.map (fun x => x.id)) :
    s ∈ (uploadStore rt cache o store rows).map (fun x => x.id) := by
  by_cases he : l.isEmpty
  · rw [List.isEmpty_iff] at he
    subst he
    rw [uploadStore_of_emptyNew rt cache o store rows h]
    rcases hs with h1 | h1
    · exact h1
    · simp at h1
  · have he' : l.isEmpty = false := by rwa [Bool.not_eq_true] at he
    rw [uploadStore_of_newList rt cache o store rows l h he']
    have hperm := (sortByDateDesc_perm
      (store ++ categorize_transactions_batch cache o l)).map (fun x => x.id)
    rw [hperm.mem_iff, List.map_append, categorize_map_id]
    exact List.mem_append.mpr hs

/-! ## Claim C5 -/

/-- C5: importing the same parsed CSV rows a second time — under the same
Python runtime functions, with the store as the first import left it — is
a no-op: the persisted store is unchanged (so in particular its size is
unchanged), and if the second request succeeds it reports 0 imported
rows.  The identity key of a row is the deterministic function `parseRow`
of the row's fields (formatted date, absolute amount, description hash),
so a re-parsed row reproduces its key and is filtered out against the
stored ids.  (A CSV whose first import aborted on a malformed amount
aborts again, leaving the store unchanged both times.)  The merchant
cache and classifier outcome may even differ between the two runs. -/
theorem C5_idempotent_import (rt : PyRuntime) (cache1 cache2 : MerchantCache)
    (o1 o2 : ClassifierOutcome) (store : List Transaction)
    (rows : List (List String)) :
    uploadStore rt cache2 o2 (uploadStore rt cache1 o1 store rows) rows =
      uploadStore rt cache1 o1 store rows ∧
    (upload_csv rt cache2 o2 (uploadStore rt cache1 o1 store rows) rows = none ∨
     upload_csv rt cache2 o2 (uploadStore rt cache1 o1 store rows) rows =
       some (uploadStore rt cache1 o1 store rows, 0)) := by
  cases h : buildNew rt (store.map (fun x => x.id)) rows with
  | none =>
      have hfail := (buildNew_eq_none_iff rt (store.map (fun x => x.id)) rows).mp h
      have h2 : buildNew rt
          ((uploadStore rt cache1 o1 store rows).map (fun x => x.id)) rows =
            none :=
        (buildNew_eq_none_iff rt _ rows).mpr hfail
      exact ⟨uploadStore_of_none rt cache2 o2 _ rows h2,
        Or.inl (upload_csv_none rt cache2 o2 _ rows h2)⟩
  | some l =>
      have hnofail : ∀ row ∈ rows, parseRow rt row ≠ RowResult.fail := by
        intro row hrow hfail
        have hnone : buildNew rt (store.map (fun x => x.id)) rows = none :=
          (buildNew_eq_none_iff rt _ rows).mpr ⟨row, hrow, hfail⟩
        rw [h] at hnone
        exact Option.noConfusion hnone
      have hknown : ∀ row ∈ rows, ∀ t : Transaction,
          parseRow rt row = RowResult.tx t →
          t.id ∈ (uploadStore rt cache1 o1 store rows).map (fun x => x.id) :=
        fun row hrow t hp =>
          mem_id_uploadStore rt cache1 o1 store rows l h t.id
            (buildNew_tx_mem rt _ rows l h row hrow t hp)
      have h2 : buildNew rt
          ((uploadStore rt cache1 o1 store rows).map (fun x => x.id)) rows =
            some [] :=
        buildNew_all_known rt _ rows hnofail hknown
      exact ⟨uploadStore_of_emptyNew rt cache2 o2 _ rows h2,
        Or.inr (upload_csv_emptyNew rt cache2 o2 _ rows h2)⟩

/-! ## Claim C10 -/

/-- C10: within a single upload, two rows that parse to the same identity
key are both imported: deduplication checks each row's key only against
`existing_ids`, computed from the transactions persisted before the upload
began and never extended during the row loop, so the stored collection
ends up holding two transactions with the same id (the reported import
count is 2, and the multiplicity of that id in the store grows by 2). -/
theorem C10_intra_file_duplicates (rt : PyRuntime) (cache : MerchantCache)
    (o : ClassifierOutcome) (store : List Transaction) (row1 row2 : List String)
    (t1 t2 : Transaction) (h1 : parseRow rt row1 = RowResult.tx t1)
    (h2 : parseRow rt row2 = RowResult.tx t2) (hid : t1.id = t2.id)
    (hnew : t1.id ∉ store.map (fun x => x.id)) :
    ∃ s : List Transaction,
      upload_csv rt cache o store [row1, row2] = some (s, 2) ∧
      s.countP (fun x => x.id = t1.id) =
        store.countP (fun x => x.id = t1.id) + 2 := by
  have hnew2 : t2.id ∉ store.map (fun x => x.id) := by rw [← hid]; exact hnew
  have hbuild : buildNew rt (store.map (fun x => x.id)) [row1, row2] =
      some [t1, t2] := by
    rw [buildNew_cons_tx_new rt _ row1 [row2] t1 h1 hnew,
      buildNew_cons_tx_new rt _ row2 [] t2 h2 hnew2]
    rfl
  refine ⟨sortByDateDesc
    (store ++ categorize_transactions_batch cache o [t1, t2]), ?_, ?_⟩
  · exact upload_csv_newList rt cache o store [row1, row2] [t1, t2] hbuild rfl
  · have hperm := sortByDateDesc_perm
      (store ++ categorize_transactions_batch cache o [t1, t2])
    rw [hperm.countP_eq, List.countP_append]
    have hm : ((categorize_transactions_batch cache o [t1, t2]).map
        (fun x => x.id)).countP (fun s => s = t1.id) = 2 := by
      rw [categorize_map_id]
      simp [hid]
    rw [List.countP_map] at hm
    have hcat : (categorize_transactions_batch cache o [t1, t2]).countP
        (fun x => x.id = t1.id) = 2 := by
      rw [← hm]
      rfl
    rw [hcat]

/-- The Python-runtime functions for a concrete witness import:
a date that fails `strptime`, a `float()` that recognizes `-5.0`, and a
constant description hash. -/
def demoRuntime : PyRuntime :=
  { strptime_dmy := fun _ => none,
    parse_float := fun s => if s = "-5.0" then some (-5) else none,
    pyhash := fun _ => 7 }

/-- A CSV row as split into fields. -/
def demoRow : List String := ["01/01/2024", "-5.0", "COFFEE"]

/-- The transaction `demoRow` parses to. -/
def demoTx : Transaction :=
  { id := transIdOf demoRuntime "01/01/2024" (-5) "COFFEE",
    date := "01/01/2024", amount := -5, description := pyStrip "COFFEE",
    category_code := none, reconciled := false }

/-- C10 witness: uploading the same row twice into an empty store imports
two transactions sharing one identity key. -/
theorem C10_intra_file_duplicates_witness :
    ∃ s : List Transaction,
      upload_csv demoRuntime [] ClassifierOutcome.apiError []
        [demoRow, demoRow] = some (s, 2) ∧
      s.countP (fun x => x.id = demoTx.id) =
        ([] : List Transaction).countP (fun x => x.id = demoTx.id) + 2 :=
  C10_intra_file_duplicates demoRuntime [] ClassifierOutcome.apiError []
    demoRow demoRow demoTx demoTx rfl rfl rfl (by simp)

end Bills
